import Mathlib

/-!
Verification development for `streaming_shot_detection.py`, a client script that
reads a local video file in fixed-size chunks, sends the chunks over a
bidirectional streaming RPC after a single configuration message, and prints one
line per shot annotation received in the responses.

Bytes are modelled as natural numbers and a file's contents as a `List Nat`;
`file_object.read(chunk_size)` on such a file returns the next `chunk_size`
elements (fewer at end of file, the empty list at end of file).
-/

namespace AIStreamer

/-- The chunk generator `stream(file_object, chunk_size)`: repeatedly read up to
`chunk_size` bytes and yield the data, stopping at the first empty read
(`if not data: break`). On the list model of a file, a read takes the first
`chunk_size` elements and leaves the rest. -/
def stream (file : List Nat) (chunk_size : Nat) : List (List Nat) :=
  if h : (file.take chunk_size).isEmpty then [] else
    file.take chunk_size :: stream (file.drop chunk_size) chunk_size
termination_by file.length
decreasing_by
  rw [List.isEmpty_iff, List.take_eq_nil_iff] at h
  push_neg at h
  have h3 : 0 < file.length := List.length_pos.mpr h.2
  simp only [List.length_drop]
  omega


/-- The streaming feature requested in the config message
(`enums.StreamingFeature`); the script selects shot change detection. -/
inductive StreamingFeature
  | streaming_shot_change_detection
  | streaming_label_detection
deriving DecidableEq

/-- `types.StreamingVideoConfig(feature=...)`. -/
structure StreamingVideoConfig where
  feature : StreamingFeature
deriving DecidableEq

/-- `types.StreamingAnnotateVideoRequest`: a oneof of a video config or a chunk
of input content. -/
inductive StreamingAnnotateVideoRequest
  | video_config (config : StreamingVideoConfig)
  | input_content (chunk : List Nat)
deriving DecidableEq

/-- The config built by `streaming_annotate`:
`StreamingVideoConfig(feature=STREAMING_SHOT_CHANGE_DETECTION)`. -/
def config : StreamingVideoConfig :=
  { feature := StreamingFeature.streaming_shot_change_detection }

/-- `config_request = types.StreamingAnnotateVideoRequest(video_config=config)`. -/
def config_request : StreamingAnnotateVideoRequest :=
  StreamingAnnotateVideoRequest.video_config config

/-- The `requests` generator: one `StreamingAnnotateVideoRequest(input_content=chunk)`
per chunk produced by `stream`, in production order. -/
def chunkRequests (file : List Nat) (c : Nat) : List StreamingAnnotateVideoRequest :=
  (stream file c).map StreamingAnnotateVideoRequest.input_content

/-- The outbound message sequence of one session:
`client.streaming_annotate_video(config_request, requests, timeout=10800)` sends
`config_request` first and then each element of `requests` in order (the
transport preserves the relative order of outbound messages). -/
def outboundMessages (file : List Nat) (c : Nat) : List StreamingAnnotateVideoRequest :=
  config_request :: chunkRequests file c

/-- Whether an outbound request is a configuration message. -/
def isConfigRequest : StreamingAnnotateVideoRequest → Bool
  | StreamingAnnotateVideoRequest.video_config _ => true
  | StreamingAnnotateVideoRequest.input_content _ => false

/-- `chunk_size = 5 * 1024 * 1024`, the chunk-size bound set in
`streaming_annotate` (5 MiB; the service recommends less than 10 MiB). -/
def chunk_size : Nat := 5 * 1024 * 1024

/-- `timeout=10800`, the idle-timeout argument (in seconds) that
`streaming_annotate` passes to the external streaming call. -/
def timeout : Nat := 10800

/-- A protobuf time offset: whole seconds plus nanoseconds. The shot time
offsets of this service are nonnegative, with `nanos < 10^9`. -/
structure TimeOffset where
  seconds : Nat
  nanos : Nat
deriving DecidableEq

/-- One shot annotation: a video segment with a start and an end time offset. -/
structure VideoSegment where
  start_time_offset : TimeOffset
  end_time_offset : TimeOffset
deriving DecidableEq

/-- `response.annotation_results`: the results carried by one response, of which
the script reads `shot_annotations`. -/
structure StreamingVideoAnnotationResults where
  shot_annotations : List VideoSegment
deriving DecidableEq

/-- One `StreamingAnnotateVideoResponse` delivered by the remote side. -/
structure StreamingAnnotateVideoResponse where
  annotation_results : StreamingVideoAnnotationResults
deriving DecidableEq

/-- The fractional decimal digits of `nanos / 1e9`: the nine-digit,
zero-left-padded decimal form of `nanos`, with trailing zeros stripped.
This is the exact decimal expansion of the fraction; for the offset values in
the source's sample output, Python's float formatting of
`seconds + nanos / 1e9` prints exactly this expansion. -/
def fracDigits (nanos : Nat) : String :=
  let s := toString nanos
  let padded := String.mk (List.replicate (9 - s.length) '0') ++ s
  String.mk ((padded.toList.reverse.dropWhile (fun ch => ch == '0')).reverse)

/-- Renders `seconds + nanos / 1e9` the way the script's `print` does: the
integer part, a point, and the fractional digits (Python prints a float whose
fractional part is zero with a single `0` after the point, e.g. `0.0`). -/
def formatOffset (off : TimeOffset) : String :=
  let f := fracDigits off.nanos
  toString off.seconds ++ "." ++ (if f = "" then "0" else f)

/-- The line printed for one shot annotation:
`print('Shot: \x7b\x7ds to \x7b\x7ds'.format(start, end))` with both offsets
rendered as `seconds + nanos / 1e9`. -/
def shotLine (seg : VideoSegment) : String :=
  "Shot: " ++ formatOffset seg.start_time_offset ++ "s to " ++
    formatOffset seg.end_time_offset ++ "s"

/-- The inner `for` loop: one `print` per annotation of one response, in the
order the annotations are embedded, appended to the lines printed so far. -/
def shotLoop : List VideoSegment → List String → List String
  | [], acc => acc
  | seg :: rest, acc => shotLoop rest (acc ++ [shotLine seg])

/-- The outer `for response in responses` loop: handles each response exactly
once, in delivery order, running the inner loop on its `shot_annotations`. -/
def responseLoop : List StreamingAnnotateVideoResponse → List String → List String
  | [], acc => acc
  | r :: rest, acc => responseLoop rest (shotLoop r.annotation_results.shot_annotations acc)

/-- All lines printed by the response-consuming loop, in print order. -/
def consumeResponses (responses : List StreamingAnnotateVideoResponse) : List String :=
  responseLoop responses []

/-- The lines a single response contributes: one `shotLine` per embedded
annotation, in embedded order. -/
def handleResponse (r : StreamingAnnotateVideoResponse) : List String :=
  r.annotation_results.shot_annotations.map shotLine

/-- Error outcomes of one run of the script. -/
inductive RunError
  | file_not_readable (path : String)
  | transport_failure
  | deadline_exceeded
deriving DecidableEq

/-- The inbound half of the session, as delivered by the external transport:
the responses actually delivered, and `none` when the remote side closed the
stream cleanly or `some e` when the call failed after those responses. -/
structure CallOutcome where
  delivered : List StreamingAnnotateVideoResponse
  failure : Option RunError

/-- Observable outcome of one run of `streaming_annotate`. -/
structure RunResult where
  sent : List StreamingAnnotateVideoRequest
  printed : List String
  opened_file : Bool
  closed_file : Bool
  outcome : Except RunError Unit

/-- Shallow embedding of `streaming_annotate(stream_file)`. `fs` models the
filesystem (`fs path` is the bytes of the file at `path`, or `none` when the
path is invalid or unreadable, in which case `open` raises before any request
is submitted); `out` models the inbound half delivered by the external
transport. The `with open(stream_file) as video_file` block closes the file on
every exit path, recorded in `closed_file`; the header print precedes the
response iteration, and an uncaught error terminates the process with a
nonzero exit, recorded as `Except.error`. -/
def streaming_annotate (fs : String → Option (List Nat)) (stream_file : String)
    (out : CallOutcome) : RunResult :=
  match fs stream_file with
  | none =>
      { sent := []
        printed := []
        opened_file := false
        closed_file := false
        outcome := Except.error (RunError.file_not_readable stream_file) }
  | some video_file =>
      { sent := outboundMessages video_file chunk_size
        printed := "\nReading response." :: consumeResponses out.delivered
        opened_file := true
        closed_file := true
        outcome :=
          match out.failure with
          | some e => Except.error e
          | none => Except.ok () }

/-- The chunk generator over an abstract file object: `reads` is the finite
sequence of values returned by successive `file_object.read(chunk_size)` calls
(the file API returns an empty result at end of file; every read past the end
of the list is empty). The loop yields each read until the first empty one,
at which point it breaks. -/
def streamReads : List (List Nat) → List (List Nat)
  | [] => []
  | r :: rest => if r.isEmpty then [] else r :: streamReads rest


theorem stream_eq (file : List Nat) (c : Nat) :
    stream file c =
      if (file.take c).isEmpty then [] else file.take c :: stream (file.drop c) c := by
  rw [stream, dite_eq_ite]

theorem stream_nil (c : Nat) : stream [] c = [] := by
  rw [stream_eq]; simp

theorem stream_zero (file : List Nat) : stream file 0 = [] := by
  rw [stream_eq]; simp

theorem stream_cons (file : List Nat) (c : Nat) (hf : file ≠ []) (hc : 0 < c) :
    stream file c = file.take c :: stream (file.drop c) c := by
  rw [stream_eq, if_neg]
  rw [List.isEmpty_iff, List.take_eq_nil_iff]
  push_neg
  exact ⟨by omega, hf⟩

theorem stream_eq_nil_iff (file : List Nat) (c : Nat) (hc : 0 < c) :
    stream file c = [] ↔ file = [] := by
  constructor
  · intro h
    by_contra hf
    rw [stream_cons file c hf hc] at h
    exact absurd h (by simp)
  · intro h
    rw [h, stream_nil]

theorem stream_induction {motive : List Nat → Prop} (c : Nat) (hc : 0 < c)
    (base : motive [])
    (step : ∀ file : List Nat, file ≠ [] → motive (file.drop c) → motive file) :
    ∀ file : List Nat, motive file := by
  have key : ∀ n (file : List Nat), file.length ≤ n → motive file := by
    intro n
    induction n with
    | zero =>
      intro file hf
      rw [List.length_eq_zero.mp (Nat.le_zero.mp hf)]
      exact base
    | succ n ih =>
      intro file hf
      rcases eq_or_ne file [] with rfl | hne
      · exact base
      · refine step file hne (ih _ ?_)
        have hpos : 0 < file.length := List.length_pos.mpr hne
        simp only [List.length_drop]
        omega
  intro file
  exact key file.length file le_rfl

theorem stream_flatten (c : Nat) (hc : 0 < c) (file : List Nat) :
    (stream file c).flatten = file := by
  refine stream_induction (motive := fun f => (stream f c).flatten = f) c hc ?_ ?_ file
  · show (stream [] c).flatten = []
    rw [stream_nil]; rfl
  · intro f hf ih
    rw [stream_cons f c hf hc, List.flatten_cons, ih]
    exact List.take_append_drop c f

theorem ceil_div_step (n c : Nat) (hc : 0 < c) (hn : 0 < n) :
    (n + c - 1) / c = ((n - c) + c - 1) / c + 1 := by
  rcases le_or_lt n c with hle | hlt
  · have h1 : n - c = 0 := by omega
    have h2 : n + c - 1 = (n - 1) + c := by omega
    rw [h1, h2, Nat.add_div_right _ hc, Nat.div_eq_of_lt (by omega : n - 1 < c),
      Nat.div_eq_of_lt (by omega : 0 + c - 1 < c)]
  · have h2 : n + c - 1 = ((n - c) + c - 1) + c := by omega
    rw [h2, Nat.add_div_right _ hc]

theorem stream_length (c : Nat) (hc : 0 < c) (file : List Nat) :
    (stream file c).length = (file.length + c - 1) / c := by
  refine stream_induction (motive := fun f => (stream f c).length = (f.length + c - 1) / c)
    c hc ?_ ?_ file
  · show (stream [] c).length = (List.length [] + c - 1) / c
    rw [stream_nil]
    simp [Nat.div_eq_of_lt (by omega : c - 1 < c)]
  · intro f hf ih
    rw [stream_cons f c hf hc, List.length_cons, ih, List.length_drop]
    exact (ceil_div_step f.length c hc (List.length_pos.mpr hf)).symm

theorem stream_dropLast_length (c : Nat) (hc : 0 < c) (file : List Nat) :
    ∀ ch ∈ (stream file c).dropLast, ch.length = c := by
  refine stream_induction (motive := fun f => ∀ ch ∈ (stream f c).dropLast, ch.length = c)
    c hc ?_ ?_ file
  · show ∀ ch ∈ (stream [] c).dropLast, ch.length = c
    rw [stream_nil]; simp
  · intro f hf ih
    rw [stream_cons f c hf hc]
    rcases eq_or_ne (f.drop c) [] with hd | hd
    · rw [hd, stream_nil]
      simp
    · have hs : stream (f.drop c) c ≠ [] := fun e => hd ((stream_eq_nil_iff _ c hc).mp e)
      have hlen : c < f.length := by
        have := List.drop_eq_nil_iff.not.mp hd
        omega
      rw [List.dropLast_cons_of_ne_nil hs]
      intro ch hch
      rcases List.mem_cons.mp hch with rfl | htail
      · rw [List.length_take]
        omega
      · exact ih ch htail

theorem stream_getLast_length (c : Nat) (hc : 0 < c) (file : List Nat) :
    file.length % c ≠ 0 →
      ((stream file c).getLast?).map List.length = some (file.length % c) := by
  refine stream_induction (motive := fun f => f.length % c ≠ 0 →
    ((stream f c).getLast?).map List.length = some (f.length % c)) c hc ?_ ?_ file
  · show List.length [] % c ≠ 0 → ((stream [] c).getLast?).map List.length = some _
    intro hmod
    simp at hmod
  · intro f hf ih hmod
    rw [stream_cons f c hf hc]
    rcases eq_or_ne (f.drop c) [] with hd | hd
    · have hle : f.length ≤ c := List.drop_eq_nil_iff.mp hd
      have hne : f.length ≠ c := by
        intro e
        rw [e, Nat.mod_self] at hmod
        exact hmod rfl
      have hlt : f.length < c := lt_of_le_of_ne hle hne
      rw [hd, stream_nil]
      simp [List.length_take, Nat.mod_eq_of_lt hlt]
      omega
    · have hs : stream (f.drop c) c ≠ [] := fun e => hd ((stream_eq_nil_iff _ c hc).mp e)
      have hlen : c < f.length := by
        have := List.drop_eq_nil_iff.not.mp hd
        omega
      have hmod' : (f.drop c).length % c ≠ 0 := by
        rw [List.length_drop, ← Nat.mod_eq_sub_mod (Nat.le_of_lt hlen)]
        exact hmod
      have := ih hmod'
      rw [List.length_drop, ← Nat.mod_eq_sub_mod (Nat.le_of_lt hlen)] at this
      cases hsl : stream (f.drop c) c with
      | nil => exact absurd hsl hs
      | cons b l' =>
        rw [List.getLast?_cons_cons]
        rw [hsl] at this
        exact this

theorem ceil_div_of_mod_eq_zero (n c : Nat) (hc : 0 < c) (hmod : n % c = 0) :
    (n + c - 1) / c = n / c := by
  obtain ⟨k, hk⟩ := Nat.dvd_of_mod_eq_zero hmod
  subst hk
  have h1 : c * k + c - 1 = c * k + (c - 1) := by omega
  rw [h1, Nat.mul_add_div hc, Nat.div_eq_of_lt (by omega : c - 1 < c),
    Nat.mul_div_cancel_left k hc]
  omega

theorem stream_chunks_nonempty (c : Nat) (hc : 0 < c) (file : List Nat) :
    ∀ ch ∈ stream file c, ch ≠ [] := by
  refine stream_induction (motive := fun f => ∀ ch ∈ stream f c, ch ≠ []) c hc ?_ ?_ file
  · show ∀ ch ∈ stream [] c, ch ≠ []
    rw [stream_nil]; simp
  · intro f hf ih
    rw [stream_cons f c hf hc]
    intro ch hch
    rcases List.mem_cons.mp hch with rfl | htail
    · rw [Ne, List.take_eq_nil_iff]
      push_neg
      exact ⟨by omega, hf⟩
    · exact ih ch htail

theorem stream_map_length_cons (file : List Nat) (c : Nat) (hf : file ≠ []) (hc : 0 < c) :
    (stream file c).map List.length
      = min c file.length :: (stream (file.drop c) c).map List.length := by
  rw [stream_cons file c hf hc, List.map_cons, List.length_take]

theorem shotLoop_eq (segs : List VideoSegment) :
    ∀ acc : List String, shotLoop segs acc = acc ++ segs.map shotLine := by
  induction segs with
  | nil => intro acc; simp [shotLoop]
  | cons seg rest ih =>
    intro acc
    rw [shotLoop, ih, List.map_cons, List.append_assoc]
    rfl

theorem responseLoop_eq (responses : List StreamingAnnotateVideoResponse) :
    ∀ acc : List String,
      responseLoop responses acc = acc ++ (responses.map handleResponse).flatten := by
  induction responses with
  | nil => intro acc; simp [responseLoop]
  | cons r rest ih =>
    intro acc
    rw [responseLoop, ih, shotLoop_eq, List.map_cons, List.flatten_cons, List.append_assoc]
    rfl

theorem consumeResponses_eq (responses : List StreamingAnnotateVideoResponse) :
    consumeResponses responses = (responses.map handleResponse).flatten := by
  rw [consumeResponses, responseLoop_eq]
  rfl

/-- C1: for a file of `N` bytes and chunk size `C > 0`, `stream` yields exactly
`⌈N/C⌉ = (N + C - 1) / C` chunks (so `0` chunks for an empty file);
concatenating the chunks in order reproduces the file; every chunk except
possibly the last has length exactly `C`; the last chunk has length `N % C`
when that is nonzero;
and when `N` is an exact multiple of `C` the sequence has exactly `N / C`
chunks, with no trailing empty chunk. -/
theorem chunk_producer_spec (file : List Nat) (c : Nat) (hc : 0 < c) :
    (stream file c).length = (file.length + c - 1) / c
  ∧ (file = [] → stream file c = [])
  ∧ (stream file c).flatten = file
  ∧ (∀ ch ∈ (stream file c).dropLast, ch.length = c)
  ∧ (file.length % c ≠ 0 →
      ((stream file c).getLast?).map List.length = some (file.length % c))
  ∧ (file.length % c = 0 → (stream file c).length = file.length / c)
  ∧ (∀ ch ∈ stream file c, ch ≠ []) := by
  refine ⟨stream_length c hc file, ?_, stream_flatten c hc file,
    stream_dropLast_length c hc file, stream_getLast_length c hc file, ?_,
    stream_chunks_nonempty c hc file⟩
  · intro h
    rw [h, stream_nil]
  · intro hmod
    rw [stream_length c hc file, ceil_div_of_mod_eq_zero file.length c hc hmod]

theorem chunk_producer_spec_witness :
    (0 : Nat) < 2
  ∧ ((stream [0, 1, 2] 2).length = (List.length ([0, 1, 2] : List Nat) + 2 - 1) / 2
  ∧ (([0, 1, 2] : List Nat) = [] → stream [0, 1, 2] 2 = [])
  ∧ (stream [0, 1, 2] 2).flatten = [0, 1, 2]
  ∧ (∀ ch ∈ (stream [0, 1, 2] 2).dropLast, ch.length = 2)
  ∧ (List.length ([0, 1, 2] : List Nat) % 2 ≠ 0 →
      ((stream [0, 1, 2] 2).getLast?).map List.length
        = some (List.length ([0, 1, 2] : List Nat) % 2))
  ∧ (List.length ([0, 1, 2] : List Nat) % 2 = 0 →
      (stream [0, 1, 2] 2).length = List.length ([0, 1, 2] : List Nat) / 2)
  ∧ (∀ ch ∈ stream [0, 1, 2] 2, ch ≠ [])) :=
  ⟨by decide, chunk_producer_spec [0, 1, 2] 2 (by decide)⟩

/-- C2: for every input file, including the empty one, the outbound sequence of
a session starts with the config request, sent exactly once and before any
chunk; the rest of the sequence is exactly one chunk request per chunk, in the
order the chunks were read. -/
theorem config_first_outbound (file : List Nat) (c : Nat) :
    (outboundMessages file c).head? = some config_request
  ∧ (outboundMessages file c).countP isConfigRequest = 1
  ∧ (outboundMessages file c).tail
      = (stream file c).map StreamingAnnotateVideoRequest.input_content
  ∧ outboundMessages [] c = [config_request] := by
  refine ⟨rfl, ?_, rfl, ?_⟩
  · have hz : (chunkRequests file c).countP isConfigRequest = 0 := by
      rw [chunkRequests, List.countP_eq_zero]
      intro x hx
      rcases List.mem_map.mp hx with ⟨ch, _, rfl⟩
      simp [isConfigRequest]
    rw [outboundMessages, List.countP_cons_of_pos _ _ (by rfl), hz]
  · rw [outboundMessages, chunkRequests, stream_nil]
    rfl

/-- C3: for any sequence of responses delivered by the remote side, the
printed output is the concatenation, in delivery order, of the block each
response contributes, and each block is one line per embedded annotation in
embedded order — each response is handled exactly once, with no local
reordering or deduplication. -/
theorem responses_handled_in_order (responses : List StreamingAnnotateVideoResponse) :
    consumeResponses responses = (responses.map handleResponse).flatten
  ∧ ∀ r : StreamingAnnotateVideoResponse,
      handleResponse r = r.annotation_results.shot_annotations.map shotLine := by
  exact ⟨consumeResponses_eq responses, fun r => rfl⟩

/-- C4: an annotation whose start offset is zero seconds and 170837000 nanos
and whose end offset is four seconds and 170837000 nanos prints as
`Shot: 0.170837s to 4.170837s` — each offset rendered as
`seconds + nanos / 1e9` with no rounding beyond what the decimal expansion
itself carries. -/
theorem shot_line_format :
    formatOffset { seconds := 0, nanos := 170837000 } = "0.170837"
  ∧ formatOffset { seconds := 4, nanos := 170837000 } = "4.170837"
  ∧ shotLine { start_time_offset := { seconds := 0, nanos := 170837000 },
               end_time_offset := { seconds := 4, nanos := 170837000 } }
      = "Shot: 0.170837s to 4.170837s" := by
  refine ⟨by decide, by decide, by decide⟩

/-- C5: the chunk-size bound `chunk_size` is 5 MiB, and a 12 MiB file is sent
as exactly 3 chunk messages of 5, 5 and 2 MiB after the single config message,
for 4 outbound messages in total. -/
theorem twelve_mib_scenario (file : List Nat) (h : file.length = 12 * 1024 * 1024) :
    chunk_size = 5 * 1024 * 1024
  ∧ (stream file chunk_size).map List.length
      = [5 * 1024 * 1024, 5 * 1024 * 1024, 2 * 1024 * 1024]
  ∧ (outboundMessages file chunk_size).length = 4 := by
  have hc : 0 < chunk_size := by norm_num [chunk_size]
  have hne : file ≠ [] := by
    intro e; rw [e] at h; simp at h
  have hd1 : (file.drop chunk_size).length = 7340032 := by
    rw [List.length_drop, h]; norm_num [chunk_size]
  have hd1ne : file.drop chunk_size ≠ [] := by
    intro e; rw [e] at hd1; simp at hd1
  have hd2 : ((file.drop chunk_size).drop chunk_size).length = 2097152 := by
    rw [List.length_drop, hd1]; norm_num [chunk_size]
  have hd2ne : (file.drop chunk_size).drop chunk_size ≠ [] := by
    intro e; rw [e] at hd2; simp at hd2
  have hd3 : (((file.drop chunk_size).drop chunk_size).drop chunk_size).length = 0 := by
    rw [List.length_drop, hd2]; norm_num [chunk_size]
  have hd3nil : ((file.drop chunk_size).drop chunk_size).drop chunk_size = [] :=
    List.length_eq_zero.mp hd3
  refine ⟨rfl, ?_, ?_⟩
  · rw [stream_map_length_cons file chunk_size hne hc,
      stream_map_length_cons _ chunk_size hd1ne hc,
      stream_map_length_cons _ chunk_size hd2ne hc,
      hd3nil, stream_nil]
    rw [h, hd1, hd2]
    simp [chunk_size, Nat.min_def]
  · rw [outboundMessages, List.length_cons, chunkRequests, List.length_map,
      stream_length chunk_size hc, h]
    rw [show chunk_size = 5 * 1024 * 1024 from rfl]

theorem twelve_mib_scenario_witness :
    (List.replicate (12 * 1024 * 1024) (0 : Nat)).length = 12 * 1024 * 1024
  ∧ (chunk_size = 5 * 1024 * 1024
  ∧ (stream (List.replicate (12 * 1024 * 1024) (0 : Nat)) chunk_size).map List.length
      = [5 * 1024 * 1024, 5 * 1024 * 1024, 2 * 1024 * 1024]
  ∧ (outboundMessages (List.replicate (12 * 1024 * 1024) (0 : Nat)) chunk_size).length
      = 4) :=
  ⟨by rw [List.length_replicate], twelve_mib_scenario (List.replicate (12 * 1024 * 1024) 0)
    (by rw [List.length_replicate])⟩

/-- C7: when the file path is invalid or unreadable, `open` raises before the
streaming call: no request is submitted, nothing is printed, and the run
terminates with the underlying error surfaced as a nonzero exit. -/
theorem unreadable_path_fails_before_send (fs : String → Option (List Nat))
    (stream_file : String) (out : CallOutcome) (h : fs stream_file = none) :
    (streaming_annotate fs stream_file out).sent = []
  ∧ (streaming_annotate fs stream_file out).printed = []
  ∧ (streaming_annotate fs stream_file out).outcome
      = Except.error (RunError.file_not_readable stream_file) := by
  simp [streaming_annotate, h]

theorem unreadable_path_fails_before_send_witness :
    (fun _ : String => (none : Option (List Nat))) "missing.mp4" = none
  ∧ ((streaming_annotate (fun _ => none) "missing.mp4" ⟨[], none⟩).sent = []
  ∧ (streaming_annotate (fun _ => none) "missing.mp4" ⟨[], none⟩).printed = []
  ∧ (streaming_annotate (fun _ => none) "missing.mp4" ⟨[], none⟩).outcome
      = Except.error (RunError.file_not_readable "missing.mp4")) :=
  ⟨rfl, unreadable_path_fails_before_send (fun _ => none) "missing.mp4" ⟨[], none⟩ rfl⟩

/-- C8: on every exit path of `streaming_annotate` — producer exhausted, clean
close, or a failure during the streaming call — the file handle is closed
exactly when it was opened, regardless of how much of the file was consumed:
the `with open(...)` block releases it on all paths. -/
theorem file_handle_released (fs : String → Option (List Nat)) (stream_file : String)
    (out : CallOutcome) :
    (streaming_annotate fs stream_file out).closed_file
      = (streaming_annotate fs stream_file out).opened_file := by
  cases hfs : fs stream_file <;> simp [streaming_annotate, hfs]

/-- C9 counterexample: with a readable file and zero responses before a clean
close, the single print is `"\nReading response."` — a blank line followed by
the header — not the bare header line `"Reading response."` the claim
states. -/
theorem empty_response_header_cex :
    (streaming_annotate (fun _ => some []) "video.mp4"
        ⟨[], none⟩).printed ≠ ["Reading response."]
  ∧ (streaming_annotate (fun _ => some []) "video.mp4"
        ⟨[], none⟩).printed = ["\nReading response."] := by
  refine ⟨by decide, by decide⟩

/-- C9 amended: if the remote side delivers zero responses and closes the
stream cleanly, the program performs exactly one print — `"\nReading
response."`, i.e. a leading blank line followed by the header text `Reading
response.` — and exits successfully. -/
theorem empty_response_header (fs : String → Option (List Nat)) (stream_file : String)
    (file : List Nat) (h : fs stream_file = some file) :
    (streaming_annotate fs stream_file ⟨[], none⟩).printed = ["\nReading response."]
  ∧ (streaming_annotate fs stream_file ⟨[], none⟩).outcome = Except.ok () := by
  simp [streaming_annotate, h, consumeResponses, responseLoop]

theorem empty_response_header_witness :
    (fun _ : String => some ([] : List Nat)) "video.mp4" = some []
  ∧ ((streaming_annotate (fun _ => some []) "video.mp4" ⟨[], none⟩).printed
      = ["\nReading response."]
  ∧ (streaming_annotate (fun _ => some []) "video.mp4" ⟨[], none⟩).outcome
      = Except.ok ()) :=
  ⟨rfl, empty_response_header (fun _ => some []) "video.mp4" [] rfl⟩

/-- C10: over any file object whose successive reads return at most
`chunk_size` bytes each and eventually return an empty result (modelled as the
finite list of read results), the generator terminates — it yields at most one
chunk per read — and every yielded chunk is nonempty and of length at most
`chunk_size`. -/
theorem stream_reads_terminates (reads : List (List Nat)) (chunk_size : Nat)
    (h : ∀ r ∈ reads, r.length ≤ chunk_size) :
    (streamReads reads).length ≤ reads.length
  ∧ ∀ ch ∈ streamReads reads, ch ≠ [] ∧ ch.length ≤ chunk_size := by
  induction reads with
  | nil => exact ⟨le_rfl, by simp [streamReads]⟩
  | cons r rest ih =>
    have hr : r.length ≤ chunk_size := h r (List.mem_cons_self r rest)
    have hrest : ∀ x ∈ rest, x.length ≤ chunk_size :=
      fun x hx => h x (List.mem_cons_of_mem r hx)
    rcases ih hrest with ⟨hlen, hmem⟩
    rw [streamReads]
    by_cases he : r.isEmpty
    · rw [if_pos he]
      exact ⟨by simp, by simp⟩
    · rw [if_neg he]
      refine ⟨by simpa using Nat.succ_le_succ hlen, ?_⟩
      intro ch hch
      rcases List.mem_cons.mp hch with rfl | htail
      · exact ⟨by simpa [List.isEmpty_iff] using he, hr⟩
      · exact hmem ch htail

theorem stream_reads_terminates_witness :
    (∀ r ∈ ([[1, 2], [3]] : List (List Nat)), r.length ≤ 2)
  ∧ ((streamReads [[1, 2], [3]]).length ≤ ([[1, 2], [3]] : List (List Nat)).length
  ∧ ∀ ch ∈ streamReads [[1, 2], [3]], ch ≠ [] ∧ ch.length ≤ 2) :=
  ⟨by decide, stream_reads_terminates [[1, 2], [3]] 2 (by decide)⟩

end AIStreamer
